import Mathlib

/-!
Shallow embedding of the `go-semver-audit` core: the surface model and diff
engine (`internal/analyzer/types.go`, `internal/analyzer/diff.go`) and the CLI
orchestration (`cmd/go-semver-audit/main.go`).

Go maps are modelled as association lists `List (String × α)`; the list order
models the (unspecified) iteration order of the Go map, and map indexing is
`lookupKey` (first match).  Go's guarantee that a map has no duplicate keys
appears as `keysNodup` hypotheses where a proof needs it.  Go `nil` slices are
`[]`; a Go `*Diff` that may be nil is `Option Diff`.
-/

namespace SemverAudit

/-- Source: `Location` in `internal/analyzer/types.go`. -/
structure Location where
  file : String
  line : Nat
deriving DecidableEq

/-- Source: `Function` in `internal/analyzer/types.go`. -/
structure Function where
  name : String
  signature : String
  pkgPath : String
  isMethod : Bool
deriving DecidableEq

/-- Source: `Type` in `internal/analyzer/types.go` (the Go struct is named
`Type`, which Lean reserves). -/
structure GoType where
  name : String
  kind : String
  pkgPath : String
deriving DecidableEq

/-- Source: `Interface` in `internal/analyzer/types.go`. -/
structure Interface where
  name : String
  methods : List String
  pkgPath : String
deriving DecidableEq

/-- Source: `API` in `internal/analyzer/types.go`.  Each Go map is an
association list whose order stands for the map's iteration order. -/
structure API where
  funcs : List (String × Function)
  types : List (String × GoType)
  interfaces : List (String × Interface)
deriving DecidableEq

/-- Source: `Usage` in `internal/analyzer/types.go`. -/
structure Usage where
  symbols : List (String × List Location)
  imports : List (String × Bool)
deriving DecidableEq

/-- Go map indexing `m[k]` (without the zero-value default): the value at the
first entry whose key is `k`. -/
def lookupKey {α : Type} : List (String × α) → String → Option α
  | [], _ => none
  | p :: rest, k => if p.1 = k then some p.2 else lookupKey rest k

/-- Go's `_, exists := m[k]` comma-ok test. -/
def hasKey {α : Type} (m : List (String × α)) (k : String) : Bool :=
  (lookupKey m k).isSome

/-- A Go map has no duplicate keys. -/
def keysNodup {α : Type} (m : List (String × α)) : Prop :=
  (m.map Prod.fst).Nodup

instance {α : Type} (m : List (String × α)) : Decidable (keysNodup m) := by
  unfold keysNodup; infer_instance

/-- Go `usage.Symbols[name]`: map indexing with the zero value `nil` (here
`[]`) when the key is absent. -/
def Usage.symbolsAt (usage : Usage) (name : String) : List Location :=
  (lookupKey usage.symbols name).getD []

/-- Source: `RemovedSymbol` in `internal/analyzer/types.go`. -/
structure RemovedSymbol where
  name : String
  type : String
  usedIn : List Location
deriving DecidableEq

/-- Source: `AddedSymbol` in `internal/analyzer/types.go`. -/
structure AddedSymbol where
  name : String
  type : String
deriving DecidableEq

/-- Source: `ChangedSignature` in `internal/analyzer/types.go`. -/
structure ChangedSignature where
  name : String
  oldSignature : String
  newSignature : String
  usedIn : List Location
deriving DecidableEq

/-- Source: `InterfaceChange` in `internal/analyzer/types.go`. -/
structure InterfaceChange where
  name : String
  addedMethods : List String
  removedMethods : List String
  changedMethods : List String
  usedIn : List Location
deriving DecidableEq

/-- Source: `Diff` in `internal/analyzer/types.go`. -/
structure Diff where
  removed : List RemovedSymbol
  added : List AddedSymbol
  changed : List ChangedSignature
  interfaceChanges : List InterfaceChange
deriving DecidableEq

/-- Source: `diffInterfaces` in `internal/analyzer/diff.go`.  The Go code
builds `map[string]bool` sets from the two method lists and ranges over those
sets; iterating a set is modelled as iterating the deduplicated list
(`m ∈ l.dedup ↔ m ∈ l`, so membership in the result is order-independent). -/
def diffInterfaces (name : String) (oldIface newIface : Interface)
    (usage : Usage) : Option InterfaceChange :=
  let removed := oldIface.methods.dedup.filter
    (fun m => !(newIface.methods.contains m))
  let added := newIface.methods.dedup.filter
    (fun m => !(oldIface.methods.contains m))
  if (added.length > 0 ∨ removed.length > 0)
      ∧ (usage.symbolsAt name).length > 0 then
    some { name := name, addedMethods := added, removedMethods := removed,
           changedMethods := [], usedIn := usage.symbolsAt name }
  else
    none

/-- Body of the "removed functions" loop of `diffAPIs`: the entry (if any)
contributed by the old-surface function binding `p`. -/
def removedFuncEntry (newAPI : API) (usage : Usage)
    (p : String × Function) : Option RemovedSymbol :=
  match lookupKey newAPI.funcs p.1 with
  | some _ => none
  | none =>
    let locations := usage.symbolsAt p.1
    if locations.length > 0 then
      some { name := p.1, type := "function", usedIn := locations }
    else
      none

/-- Body of the "signature changed" branch of `diffAPIs`'s first loop. -/
def changedFuncEntry (newAPI : API) (usage : Usage)
    (p : String × Function) : Option ChangedSignature :=
  match lookupKey newAPI.funcs p.1 with
  | none => none
  | some newFunc =>
    if p.2.signature ≠ newFunc.signature then
      let locations := usage.symbolsAt p.1
      if locations.length > 0 then
        some { name := p.1, oldSignature := p.2.signature,
               newSignature := newFunc.signature, usedIn := locations }
      else
        none
    else
      none

/-- Body of the "added functions" loop of `diffAPIs`. -/
def addedFuncEntry (oldAPI : API) (p : String × Function) : Option AddedSymbol :=
  if hasKey oldAPI.funcs p.1 then none
  else some { name := p.1, type := "function" }

/-- Body of the "removed types" loop of `diffAPIs`. -/
def removedTypeEntry (newAPI : API) (usage : Usage)
    (p : String × GoType) : Option RemovedSymbol :=
  if hasKey newAPI.types p.1 then none
  else
    let locations := usage.symbolsAt p.1
    if locations.length > 0 then
      some { name := p.1, type := "type", usedIn := locations }
    else
      none

/-- Body of the "added types" loop of `diffAPIs`. -/
def addedTypeEntry (oldAPI : API) (p : String × GoType) : Option AddedSymbol :=
  if hasKey oldAPI.types p.1 then none
  else some { name := p.1, type := "type" }

/-- Body of the "interface changes" branch of `diffAPIs`'s interface loop. -/
def ifaceChangeEntry (newAPI : API) (usage : Usage)
    (p : String × Interface) : Option InterfaceChange :=
  match lookupKey newAPI.interfaces p.1 with
  | some newIface => diffInterfaces p.1 p.2 newIface usage
  | none => none

/-- Body of the "interface removed" branch of `diffAPIs`'s interface loop. -/
def removedIfaceEntry (newAPI : API) (usage : Usage)
    (p : String × Interface) : Option RemovedSymbol :=
  match lookupKey newAPI.interfaces p.1 with
  | some _ => none
  | none =>
    let locations := usage.symbolsAt p.1
    if locations.length > 0 then
      some { name := p.1, type := "interface", usedIn := locations }
    else
      none

/-- Body of the "added interfaces" loop of `diffAPIs`. -/
def addedIfaceEntry (oldAPI : API) (p : String × Interface) : Option AddedSymbol :=
  if hasKey oldAPI.interfaces p.1 then none
  else some { name := p.1, type := "interface" }

/-- Source: `diffAPIs` in `internal/analyzer/diff.go`.  Each Go `for … range`
loop appending to a slice is a `filterMap` of its loop body over the
corresponding association list; the slices are concatenated in the order the
source appends to them (functions, then types, then interfaces). -/
def diffAPIs (oldAPI newAPI : API) (usage : Usage) : Diff :=
  { removed :=
      oldAPI.funcs.filterMap (removedFuncEntry newAPI usage)
        ++ oldAPI.types.filterMap (removedTypeEntry newAPI usage)
        ++ oldAPI.interfaces.filterMap (removedIfaceEntry newAPI usage)
    added :=
      newAPI.funcs.filterMap (addedFuncEntry oldAPI)
        ++ newAPI.types.filterMap (addedTypeEntry oldAPI)
        ++ newAPI.interfaces.filterMap (addedIfaceEntry oldAPI)
    changed := oldAPI.funcs.filterMap (changedFuncEntry newAPI usage)
    interfaceChanges := oldAPI.interfaces.filterMap (ifaceChangeEntry newAPI usage) }

/-- Source: `Upgrade` in `internal/analyzer/types.go`. -/
structure Upgrade where
  module : String
  oldVersion : String
  newVersion : String
deriving DecidableEq

/-- Source: `Result` in `internal/analyzer/types.go`; `Changes *Diff` is an
`Option Diff` (nil pointer = `none`). -/
structure Result where
  module : String
  oldVersion : String
  newVersion : String
  changes : Option Diff
  unusedDeps : List String
deriving DecidableEq

/-- Source: `Result.HasBreakingChanges` in `internal/analyzer/types.go`. -/
def Result.hasBreakingChanges (r : Result) : Bool :=
  match r.changes with
  | none => false
  | some c =>
    c.removed.length > 0 || c.changed.length > 0 || c.interfaceChanges.length > 0

/-- Source: `Result.HasWarnings` in `internal/analyzer/types.go`. -/
def Result.hasWarnings (r : Result) : Bool :=
  match r.changes with
  | none => false
  | some c => c.added.length > 0 || r.unusedDeps.length > 0

/-- Source: `ParseError` in `internal/analyzer/types.go`. -/
structure ParseError where
  spec : String
deriving DecidableEq

/-- Source: `ParseError.Error` in `internal/analyzer/types.go`. -/
def ParseError.message (e : ParseError) : String :=
  "invalid upgrade specification: " ++ e.spec ++ " (expected format: module@version)"

/-- Go `strings.Split(s, sep)` for the one-character separator used by
`ParseUpgrade`: the segments of the string between occurrences of `sep`
(`[""]` for the empty string, as in Go). -/
def splitOnChar (sep : Char) : List Char → List String
  | [] => [""]
  | c :: rest =>
    match splitOnChar sep rest with
    | [] => []
    | s :: tail =>
      if c = sep then "" :: s :: tail
      else String.mk (c :: s.data) :: tail

/-- Go `unicode.IsSpace`: the code points of Go's `unicode.White_Space`
range table — U+0009 to U+000D, U+0020, U+0085, U+00A0, U+1680,
U+2000 to U+200A, U+2028, U+2029, U+202F, U+205F and U+3000. -/
def isSpaceGo (c : Char) : Bool :=
  decide ((0x09 ≤ c.toNat ∧ c.toNat ≤ 0x0D)
    ∨ (0x2000 ≤ c.toNat ∧ c.toNat ≤ 0x200A)
    ∨ c.toNat ∈ ([0x20, 0x85, 0xA0, 0x1680, 0x2028, 0x2029, 0x202F,
        0x205F, 0x3000] : List Nat))

/-- Go `strings.TrimSpace`: drop leading and trailing `unicode.IsSpace`
characters. -/
def trimSpace (s : String) : String :=
  String.mk
    (((s.data.dropWhile isSpaceGo).reverse.dropWhile isSpaceGo).reverse)

/-- Source: `ParseUpgrade` in `internal/analyzer/types.go`.  Go's
`strings.Split(spec, "@")` is `splitOnChar '@'` on the character list and
`strings.TrimSpace` is `trimSpace`; the `len(parts) != 2` test is the
pattern match. -/
def parseUpgrade (spec : String) : Except ParseError Upgrade :=
  match splitOnChar '@' spec.data with
  | [p0, p1] =>
    let module := trimSpace p0
    let version := trimSpace p1
    if module = "" ∨ version = "" then
      .error { spec := spec }
    else
      .ok { module := module, oldVersion := "", newVersion := version }
  | _ => .error { spec := spec }

/-- Source: `config` in `cmd/go-semver-audit/main.go`. -/
structure Config where
  projectPath : String
  upgrade : String
  jsonOutput : Bool
  strict : Bool
  unused : Bool
  verbose : Bool
  showVersion : Bool
deriving DecidableEq

/-- Source: `determineExitCode` in `cmd/go-semver-audit/main.go`. -/
def determineExitCode (result : Result) (strict : Bool) : Nat :=
  if result.hasBreakingChanges then 1
  else if strict && result.hasWarnings then 1
  else 0

/-- The outcomes of the effectful collaborator calls `run` makes
(`analyzer.New`, `Analyzer.Analyze`, `Analyzer.FindUnusedDependencies`,
`report.FormatJSON`, `report.FormatText` — all outside this package's pure
core).  Go's `(value, error)` returns are `Except String`; a Go call that
returns `(nil, err)` leaves the value at its zero value, so only the error
is recorded. -/
structure RunEnv where
  newAnalyzer : Except String Unit
  analyze : Upgrade → Except String Result
  findUnusedDependencies : Except String (List String)
  formatJSON : Result → Except String String
  formatText : Result → Bool → Except String String

/-- Source: `run` in `cmd/go-semver-audit/main.go`.  Effects are modelled by
`RunEnv`; instead of printing and calling `os.Exit`, the function returns the
rendered report, the final `Result`, and the exit code from
`determineExitCode`.  In the unused-dependency block, a failure with
`cfg.verbose` prints a warning and leaves the result untouched, while a
failure without `cfg.verbose` takes the `else` branch and assigns the `nil`
slice returned alongside the error. -/
def run (cfg : Config) (env : RunEnv) : Except String (String × Result × Nat) :=
  match parseUpgrade cfg.upgrade with
  | .error e => .error ("invalid upgrade specification: " ++ e.message)
  | .ok moduleUpgrade =>
    match env.newAnalyzer with
    | .error e => .error ("failed to initialize analyzer: " ++ e)
    | .ok _ =>
      match env.analyze moduleUpgrade with
      | .error e => .error ("analysis failed: " ++ e)
      | .ok result0 =>
        let result : Result :=
          if cfg.unused then
            match env.findUnusedDependencies with
            | .error _ =>
              if cfg.verbose then result0
              else { result0 with unusedDeps := [] }
            | .ok unused => { result0 with unusedDeps := unused }
          else result0
        match (if cfg.jsonOutput then env.formatJSON result
               else env.formatText result cfg.verbose) with
        | .error e => .error ("failed to generate report: " ++ e)
        | .ok output => .ok (output, result, determineExitCode result cfg.strict)

/-! ### Concrete sample values (used to instantiate the theorems below) -/

/-- Old surface of the spec's removal scenario: one function `F`. -/
def oldSurfF : API :=
  { funcs := [("F", { name := "F", signature := "func() error",
                      pkgPath := "", isMethod := false })],
    types := [], interfaces := [] }

/-- The empty surface. -/
def emptySurface : API := { funcs := [], types := [], interfaces := [] }

/-- Usage index of the spec's removal scenario: `F` used at `m.go:10`. -/
def usageF : Usage :=
  { symbols := [("F", [{ file := "m.go", line := 10 }])], imports := [] }

/-- The empty usage index. -/
def emptyUsage : Usage := { symbols := [], imports := [] }

/-- Old surface with function `Parse` of signature `func() error`. -/
def oldSurfParse : API :=
  { funcs := [("Parse", { name := "Parse", signature := "func() error",
                          pkgPath := "", isMethod := false })],
    types := [], interfaces := [] }

/-- New surface where `Parse` takes a context argument. -/
def newSurfParse : API :=
  { funcs := [("Parse", { name := "Parse",
                          signature := "func(context.Context) error",
                          pkgPath := "", isMethod := false })],
    types := [], interfaces := [] }

/-- Usage index with `Parse` used at `main.go:10`. -/
def usageParse : Usage :=
  { symbols := [("Parse", [{ file := "main.go", line := 10 }])], imports := [] }

/-- Old surface of the spec's interface scenario: `Handler` with two methods. -/
def oldSurfHandler : API :=
  { funcs := [], types := [],
    interfaces := [("Handler", { name := "Handler",
                                 methods := ["Handle() error", "Close() error"],
                                 pkgPath := "" })] }

/-- New surface of the spec's interface scenario: `Handler` lost `Close`. -/
def newSurfHandler : API :=
  { funcs := [], types := [],
    interfaces := [("Handler", { name := "Handler",
                                 methods := ["Handle() error"],
                                 pkgPath := "" })] }

/-- Usage index with `Handler` used at `main.go:10`. -/
def usageHandler : Usage :=
  { symbols := [("Handler", [{ file := "main.go", line := 10 }])], imports := [] }

/-- A surface whose function map holds `A` then `B` in iteration order. -/
def surfAB : API :=
  { funcs := [("A", { name := "A", signature := "func()",
                      pkgPath := "", isMethod := false }),
              ("B", { name := "B", signature := "func()",
                      pkgPath := "", isMethod := false })],
    types := [], interfaces := [] }

/-- The same function map as `surfAB`, iterated in the other order. -/
def surfBA : API :=
  { funcs := [("B", { name := "B", signature := "func()",
                      pkgPath := "", isMethod := false }),
              ("A", { name := "A", signature := "func()",
                      pkgPath := "", isMethod := false })],
    types := [], interfaces := [] }

/-- Usage index in which both `A` and `B` are used. -/
def usageAB : Usage :=
  { symbols := [("A", [{ file := "m.go", line := 1 }]),
                ("B", [{ file := "m.go", line := 2 }])],
    imports := [] }

/-- A result with an empty (non-nil) diff and one unused dependency. -/
def resultUnusedOnly : Result :=
  { module := "example.com/lib", oldVersion := "v1.0.0", newVersion := "v2.0.0",
    changes := some { removed := [], added := [], changed := [],
                      interfaceChanges := [] },
    unusedDeps := ["example.com/unused"] }

/-- A result whose analysis found one removed-and-used symbol. -/
def resultBreaking : Result :=
  { module := "example.com/lib", oldVersion := "v1.0.0", newVersion := "v2.0.0",
    changes := some (diffAPIs oldSurfF emptySurface usageF),
    unusedDeps := [] }

/-- A collaborator environment whose unused-dependency pass fails. -/
def envUnusedFails : RunEnv :=
  { newAnalyzer := .ok (),
    analyze := fun _ => .ok resultBreaking,
    findUnusedDependencies := .error "load failure",
    formatJSON := fun _ => .ok "{}",
    formatText := fun _ _ => .ok "report" }

/-- A configuration requesting the unused-dependency pass, non-verbose. -/
def cfgUnused : Config :=
  { projectPath := ".", upgrade := "example.com/lib@v2.0.0",
    jsonOutput := false, strict := false, unused := true,
    verbose := false, showVersion := false }

/-! ### Lemmas about the association-list model of Go maps -/

theorem lookupKey_eq_none_iff {α : Type} {m : List (String × α)} {k : String} :
    lookupKey m k = none ↔ ∀ p ∈ m, p.1 ≠ k := by
  induction m with
  | nil => simp [lookupKey]
  | cons q rest ih =>
    simp only [lookupKey]
    by_cases hq : q.1 = k
    · simp [hq]
    · simp [hq, ih]

theorem mem_of_lookupKey_eq_some {α : Type} {m : List (String × α)} {k : String}
    {v : α} (h : lookupKey m k = some v) : (k, v) ∈ m := by
  induction m with
  | nil => simp [lookupKey] at h
  | cons q rest ih =>
    simp only [lookupKey] at h
    by_cases hq : q.1 = k
    · rw [if_pos hq] at h
      have hv : q.2 = v := Option.some.inj h
      exact List.mem_cons.mpr (Or.inl (Prod.ext hq hv).symm)
    · rw [if_neg hq] at h
      exact List.mem_cons_of_mem _ (ih h)

theorem lookupKey_isSome_of_mem {α : Type} {m : List (String × α)}
    {p : String × α} (hp : p ∈ m) : (lookupKey m p.1).isSome = true := by
  induction m with
  | nil => simp at hp
  | cons q rest ih =>
    simp only [lookupKey]
    by_cases hq : q.1 = p.1
    · simp [hq]
    · have : p ∈ rest := by
        rcases List.mem_cons.mp hp with h | h
        · exact absurd (by rw [h]) hq
        · exact h
      simp [hq, ih this]

theorem lookupKey_eq_some_of_mem {α : Type} {m : List (String × α)}
    (hnd : keysNodup m) {p : String × α} (hp : p ∈ m) :
    lookupKey m p.1 = some p.2 := by
  induction m with
  | nil => simp at hp
  | cons q rest ih =>
    have hnd' : keysNodup rest := (List.nodup_cons.mp hnd).2
    rcases List.mem_cons.mp hp with h | h
    · subst h; simp [lookupKey]
    · have hne : q.1 ≠ p.1 := by
        intro hcontra
        exact (List.nodup_cons.mp hnd).1
          (hcontra ▸ List.mem_map_of_mem Prod.fst h)
      simp [lookupKey, hne, ih hnd' h]

theorem lookupKey_eq_some_iff_mem {α : Type} {m : List (String × α)}
    (hnd : keysNodup m) {k : String} {v : α} :
    lookupKey m k = some v ↔ (k, v) ∈ m :=
  ⟨mem_of_lookupKey_eq_some,
    fun h => lookupKey_eq_some_of_mem hnd (show ((k, v) : String × α) ∈ m from h)⟩

theorem keysNodup_of_perm {α : Type} {m₁ m₂ : List (String × α)}
    (hnd : keysNodup m₁) (h : m₁.Perm m₂) : keysNodup m₂ :=
  ((h.map Prod.fst).nodup_iff).mp hnd

theorem lookupKey_congr_perm {α : Type} {m₁ m₂ : List (String × α)}
    (hnd : keysNodup m₁) (h : m₁.Perm m₂) (k : String) :
    lookupKey m₁ k = lookupKey m₂ k := by
  have hnd₂ : keysNodup m₂ := keysNodup_of_perm hnd h
  cases hv : lookupKey m₁ k with
  | some v =>
    exact ((lookupKey_eq_some_iff_mem hnd₂).mpr
      (h.subset (mem_of_lookupKey_eq_some hv))).symm
  | none =>
    rw [lookupKey_eq_none_iff] at hv
    exact (lookupKey_eq_none_iff.mpr fun p hp => hv p (h.symm.subset hp)).symm

theorem hasKey_congr_perm {α : Type} {m₁ m₂ : List (String × α)}
    (hnd : keysNodup m₁) (h : m₁.Perm m₂) (k : String) :
    hasKey m₁ k = hasKey m₂ k := by
  unfold hasKey
  rw [lookupKey_congr_perm hnd h]

theorem symbolsAt_ne_nil_iff {u : Usage} {name : String} :
    u.symbolsAt name ≠ [] ↔
      ∃ locs, lookupKey u.symbols name = some locs ∧ locs ≠ [] := by
  unfold Usage.symbolsAt
  cases h : lookupKey u.symbols name <;> simp

theorem symbolsAt_congr_perm {u₁ u₂ : Usage} (hnd : keysNodup u₁.symbols)
    (h : u₁.symbols.Perm u₂.symbols) (name : String) :
    u₁.symbolsAt name = u₂.symbolsAt name := by
  unfold Usage.symbolsAt
  rw [lookupKey_congr_perm hnd h]

/-! ### Characterizations of the diff-engine loop bodies -/

theorem removedFuncEntry_eq_some_iff {n : API} {u : Usage}
    {p : String × Function} {r : RemovedSymbol} :
    removedFuncEntry n u p = some r ↔
      lookupKey n.funcs p.1 = none ∧ u.symbolsAt p.1 ≠ [] ∧
        r = ⟨p.1, "function", u.symbolsAt p.1⟩ := by
  unfold removedFuncEntry
  cases h : lookupKey n.funcs p.1 with
  | some v => simp
  | none =>
    dsimp only
    by_cases hu : (u.symbolsAt p.1).length > 0
    · rw [if_pos hu]
      constructor
      · intro he
        exact ⟨by trivial, List.length_pos.mp hu, (Option.some.inj he).symm⟩
      · rintro ⟨-, -, he⟩
        rw [he]
    · rw [if_neg hu]
      constructor
      · intro he; cases he
      · rintro ⟨-, hne, -⟩
        exact absurd (List.length_pos.mpr hne) hu

theorem changedFuncEntry_eq_some_iff {n : API} {u : Usage}
    {p : String × Function} {c : ChangedSignature} :
    changedFuncEntry n u p = some c ↔
      ∃ nf, lookupKey n.funcs p.1 = some nf ∧ p.2.signature ≠ nf.signature ∧
        u.symbolsAt p.1 ≠ [] ∧
        c = ⟨p.1, p.2.signature, nf.signature, u.symbolsAt p.1⟩ := by
  unfold changedFuncEntry
  cases h : lookupKey n.funcs p.1 with
  | none => simp
  | some nf =>
    dsimp only
    by_cases hs : p.2.signature = nf.signature
    · rw [if_neg (not_not_intro hs)]
      constructor
      · intro he; cases he
      · rintro ⟨nf', hnf', hne, -, -⟩
        obtain rfl := Option.some.inj hnf'
        exact absurd hs hne
    · rw [if_pos hs]
      by_cases hu : (u.symbolsAt p.1).length > 0
      · rw [if_pos hu]
        constructor
        · intro he
          exact ⟨nf, rfl, hs, List.length_pos.mp hu, (Option.some.inj he).symm⟩
        · rintro ⟨nf', hnf', -, -, he⟩
          obtain rfl := Option.some.inj hnf'
          rw [he]
      · rw [if_neg hu]
        constructor
        · intro he; cases he
        · rintro ⟨nf', -, -, hne, -⟩
          exact absurd (List.length_pos.mpr hne) hu

theorem addedFuncEntry_eq_some_iff {o : API} {p : String × Function}
    {a : AddedSymbol} :
    addedFuncEntry o p = some a ↔
      hasKey o.funcs p.1 = false ∧ a = ⟨p.1, "function"⟩ := by
  unfold addedFuncEntry
  cases h : hasKey o.funcs p.1 with
  | true => simp
  | false =>
    simp only [Bool.false_eq_true, if_false]
    constructor
    · intro he
      exact ⟨by trivial, (Option.some.inj he).symm⟩
    · rintro ⟨-, he⟩
      rw [he]

theorem removedTypeEntry_eq_some_iff {n : API} {u : Usage}
    {p : String × GoType} {r : RemovedSymbol} :
    removedTypeEntry n u p = some r ↔
      hasKey n.types p.1 = false ∧ u.symbolsAt p.1 ≠ [] ∧
        r = ⟨p.1, "type", u.symbolsAt p.1⟩ := by
  unfold removedTypeEntry
  cases h : hasKey n.types p.1 with
  | true => simp
  | false =>
    simp only [Bool.false_eq_true, if_false]
    by_cases hu : (u.symbolsAt p.1).length > 0
    · rw [if_pos hu]
      constructor
      · intro he
        exact ⟨by trivial, List.length_pos.mp hu, (Option.some.inj he).symm⟩
      · rintro ⟨-, -, he⟩
        rw [he]
    · rw [if_neg hu]
      constructor
      · intro he; cases he
      · rintro ⟨-, hne, -⟩
        exact absurd (List.length_pos.mpr hne) hu

theorem addedTypeEntry_eq_some_iff {o : API} {p : String × GoType}
    {a : AddedSymbol} :
    addedTypeEntry o p = some a ↔
      hasKey o.types p.1 = false ∧ a = ⟨p.1, "type"⟩ := by
  unfold addedTypeEntry
  cases h : hasKey o.types p.1 with
  | true => simp
  | false =>
    simp only [Bool.false_eq_true, if_false]
    constructor
    · intro he
      exact ⟨by trivial, (Option.some.inj he).symm⟩
    · rintro ⟨-, he⟩
      rw [he]

theorem removedIfaceEntry_eq_some_iff {n : API} {u : Usage}
    {p : String × Interface} {r : RemovedSymbol} :
    removedIfaceEntry n u p = some r ↔
      lookupKey n.interfaces p.1 = none ∧ u.symbolsAt p.1 ≠ [] ∧
        r = ⟨p.1, "interface", u.symbolsAt p.1⟩ := by
  unfold removedIfaceEntry
  cases h : lookupKey n.interfaces p.1 with
  | some v => simp
  | none =>
    dsimp only
    by_cases hu : (u.symbolsAt p.1).length > 0
    · rw [if_pos hu]
      constructor
      · intro he
        exact ⟨by trivial, List.length_pos.mp hu, (Option.some.inj he).symm⟩
      · rintro ⟨-, -, he⟩
        rw [he]
    · rw [if_neg hu]
      constructor
      · intro he; cases he
      · rintro ⟨-, hne, -⟩
        exact absurd (List.length_pos.mpr hne) hu

theorem addedIfaceEntry_eq_some_iff {o : API} {p : String × Interface}
    {a : AddedSymbol} :
    addedIfaceEntry o p = some a ↔
      hasKey o.interfaces p.1 = false ∧ a = ⟨p.1, "interface"⟩ := by
  unfold addedIfaceEntry
  cases h : hasKey o.interfaces p.1 with
  | true => simp
  | false =>
    simp only [Bool.false_eq_true, if_false]
    constructor
    · intro he
      exact ⟨by trivial, (Option.some.inj he).symm⟩
    · rintro ⟨-, he⟩
      rw [he]

/-- Membership in one of the method-set difference lists built by
`diffInterfaces`. -/
theorem mem_methodFilter {xs ys : List String} {m : String} :
    m ∈ xs.dedup.filter (fun x => !(ys.contains x)) ↔ m ∈ xs ∧ m ∉ ys := by
  simp [List.mem_filter, List.mem_dedup]

theorem methodFilter_length_pos {xs ys : List String} :
    0 < (xs.dedup.filter (fun x => !(ys.contains x))).length ↔
      ∃ m ∈ xs, m ∉ ys := by
  rw [List.length_pos]
  constructor
  · intro h
    obtain ⟨m, hm⟩ := List.exists_mem_of_ne_nil _ h
    exact ⟨m, (mem_methodFilter.mp hm).1, (mem_methodFilter.mp hm).2⟩
  · rintro ⟨m, hm, hn⟩ hnil
    have hmem : m ∈ xs.dedup.filter (fun x => !(ys.contains x)) :=
      mem_methodFilter.mpr ⟨hm, hn⟩
    rw [hnil] at hmem
    cases hmem

theorem diffInterfaces_eq_some_iff {name : String} {oi ni : Interface}
    {u : Usage} {ic : InterfaceChange} :
    diffInterfaces name oi ni u = some ic ↔
      ((∃ m ∈ ni.methods, m ∉ oi.methods) ∨ (∃ m ∈ oi.methods, m ∉ ni.methods))
        ∧ u.symbolsAt name ≠ [] ∧
        ic = ⟨name,
              ni.methods.dedup.filter (fun m => !(oi.methods.contains m)),
              oi.methods.dedup.filter (fun m => !(ni.methods.contains m)),
              [], u.symbolsAt name⟩ := by
  unfold diffInterfaces
  dsimp only
  by_cases hcond :
      ((ni.methods.dedup.filter (fun m => !(oi.methods.contains m))).length > 0
        ∨ (oi.methods.dedup.filter (fun m => !(ni.methods.contains m))).length > 0)
      ∧ (u.symbolsAt name).length > 0
  · rw [if_pos hcond]
    constructor
    · intro he
      refine ⟨?_, List.length_pos.mp hcond.2, (Option.some.inj he).symm⟩
      rcases hcond.1 with h1 | h1
      · exact Or.inl (methodFilter_length_pos.mp h1)
      · exact Or.inr (methodFilter_length_pos.mp h1)
    · rintro ⟨-, -, he⟩
      rw [he]
  · rw [if_neg hcond]
    constructor
    · intro he; cases he
    · rintro ⟨hsym, hu, -⟩
      refine absurd ⟨?_, List.length_pos.mpr hu⟩ hcond
      rcases hsym with h1 | h1
      · exact Or.inl (methodFilter_length_pos.mpr h1)
      · exact Or.inr (methodFilter_length_pos.mpr h1)

/-- A change emitted by `diffInterfaces` is named after the interface it was
called for. -/
theorem name_of_diffInterfaces_eq_some {name : String} {oi ni : Interface}
    {u : Usage} {ic : InterfaceChange}
    (h : diffInterfaces name oi ni u = some ic) : ic.name = name := by
  rw [(diffInterfaces_eq_some_iff.mp h).2.2]

theorem ifaceChangeEntry_eq_some_iff {n : API} {u : Usage}
    {p : String × Interface} {ic : InterfaceChange} :
    ifaceChangeEntry n u p = some ic ↔
      ∃ ni, lookupKey n.interfaces p.1 = some ni ∧
        diffInterfaces p.1 p.2 ni u = some ic := by
  unfold ifaceChangeEntry
  cases h : lookupKey n.interfaces p.1 with
  | none => simp
  | some ni => simp

theorem hasKey_eq_true_iff {α : Type} {m : List (String × α)} {k : String} :
    hasKey m k = true ↔ ∃ v, lookupKey m k = some v := by
  unfold hasKey
  cases h : lookupKey m k <;> simp

theorem hasKey_eq_false_iff {α : Type} {m : List (String × α)} {k : String} :
    hasKey m k = false ↔ lookupKey m k = none := by
  unfold hasKey
  cases h : lookupKey m k <;> simp

/-! ### Membership characterizations of the four Diff components -/

theorem mem_removed_iff {o n : API} {u : Usage} {r : RemovedSymbol} :
    r ∈ (diffAPIs o n u).removed ↔
      (∃ p ∈ o.funcs, removedFuncEntry n u p = some r)
      ∨ (∃ p ∈ o.types, removedTypeEntry n u p = some r)
      ∨ (∃ p ∈ o.interfaces, removedIfaceEntry n u p = some r) := by
  simp [diffAPIs, List.mem_append, List.mem_filterMap, or_assoc]

theorem mem_added_iff {o n : API} {u : Usage} {a : AddedSymbol} :
    a ∈ (diffAPIs o n u).added ↔
      (∃ p ∈ n.funcs, addedFuncEntry o p = some a)
      ∨ (∃ p ∈ n.types, addedTypeEntry o p = some a)
      ∨ (∃ p ∈ n.interfaces, addedIfaceEntry o p = some a) := by
  simp [diffAPIs, List.mem_append, List.mem_filterMap, or_assoc]

theorem mem_changed_iff {o n : API} {u : Usage} {c : ChangedSignature} :
    c ∈ (diffAPIs o n u).changed ↔
      ∃ p ∈ o.funcs, changedFuncEntry n u p = some c := by
  simp [diffAPIs, List.mem_filterMap]

theorem mem_ifaceChanges_iff {o n : API} {u : Usage} {ic : InterfaceChange} :
    ic ∈ (diffAPIs o n u).interfaceChanges ↔
      ∃ p ∈ o.interfaces, ifaceChangeEntry n u p = some ic := by
  simp [diffAPIs, List.mem_filterMap]

/-- Every report filtered by usage is silent about a name with no usage
locations: nothing in `Removed`, `Changed` or `InterfaceChanges` carries it. -/
theorem no_reports_of_unused (o n : API) (u : Usage) (name : String)
    (hu : u.symbolsAt name = []) :
    (∀ r ∈ (diffAPIs o n u).removed, r.name ≠ name)
    ∧ (∀ c ∈ (diffAPIs o n u).changed, c.name ≠ name)
    ∧ (∀ ic ∈ (diffAPIs o n u).interfaceChanges, ic.name ≠ name) := by
  refine ⟨?_, ?_, ?_⟩
  · intro r hr heq
    rcases mem_removed_iff.mp hr with ⟨p, hp, he⟩ | ⟨p, hp, he⟩ | ⟨p, hp, he⟩
    · obtain ⟨-, hne, hre⟩ := removedFuncEntry_eq_some_iff.mp he
      rw [hre] at heq
      have hname : p.1 = name := heq
      exact hne (by rw [hname]; exact hu)
    · obtain ⟨-, hne, hre⟩ := removedTypeEntry_eq_some_iff.mp he
      rw [hre] at heq
      have hname : p.1 = name := heq
      exact hne (by rw [hname]; exact hu)
    · obtain ⟨-, hne, hre⟩ := removedIfaceEntry_eq_some_iff.mp he
      rw [hre] at heq
      have hname : p.1 = name := heq
      exact hne (by rw [hname]; exact hu)
  · intro c hc heq
    obtain ⟨p, hp, he⟩ := mem_changed_iff.mp hc
    obtain ⟨nf, -, -, hne, hce⟩ := changedFuncEntry_eq_some_iff.mp he
    rw [hce] at heq
    have hname : p.1 = name := heq
    exact hne (by rw [hname]; exact hu)
  · intro ic hic heq
    obtain ⟨p, hp, he⟩ := mem_ifaceChanges_iff.mp hic
    obtain ⟨ni, -, hdi⟩ := ifaceChangeEntry_eq_some_iff.mp he
    obtain ⟨-, hne, hie⟩ := diffInterfaces_eq_some_iff.mp hdi
    have : ic.name = p.1 := by rw [hie]
    rw [this] at heq
    exact hne (by rw [heq]; exact hu)

/-! ### Claim theorems -/

/-- C4: for every Surface `S` (a Go map, hence duplicate-free keys) and every
UsageIndex `u`, diffing `S` against itself yields a Diff whose `Removed`,
`Added`, `Changed` and `InterfaceChanges` sequences are all empty. -/
theorem diff_self_empty (S : API) (u : Usage)
    (hf : keysNodup S.funcs) (hi : keysNodup S.interfaces) :
    diffAPIs S S u =
      { removed := [], added := [], changed := [], interfaceChanges := [] } := by
  have hrf : ∀ p ∈ S.funcs, removedFuncEntry S u p = none := by
    intro p hp
    cases he : removedFuncEntry S u p with
    | none => rfl
    | some r =>
      have h1 := (removedFuncEntry_eq_some_iff.mp he).1
      rw [lookupKey_eq_some_of_mem hf hp] at h1
      cases h1
  have hcf : ∀ p ∈ S.funcs, changedFuncEntry S u p = none := by
    intro p hp
    cases he : changedFuncEntry S u p with
    | none => rfl
    | some c =>
      obtain ⟨nf, hnf, hne, -, -⟩ := changedFuncEntry_eq_some_iff.mp he
      rw [lookupKey_eq_some_of_mem hf hp] at hnf
      obtain rfl := Option.some.inj hnf
      exact (hne rfl).elim
  have haf : ∀ p ∈ S.funcs, addedFuncEntry S p = none := by
    intro p hp
    cases he : addedFuncEntry S p with
    | none => rfl
    | some a =>
      have h1 := (addedFuncEntry_eq_some_iff.mp he).1
      unfold hasKey at h1
      rw [lookupKey_isSome_of_mem hp] at h1
      cases h1
  have hrt : ∀ p ∈ S.types, removedTypeEntry S u p = none := by
    intro p hp
    cases he : removedTypeEntry S u p with
    | none => rfl
    | some r =>
      have h1 := (removedTypeEntry_eq_some_iff.mp he).1
      unfold hasKey at h1
      rw [lookupKey_isSome_of_mem hp] at h1
      cases h1
  have hat : ∀ p ∈ S.types, addedTypeEntry S p = none := by
    intro p hp
    cases he : addedTypeEntry S p with
    | none => rfl
    | some a =>
      have h1 := (addedTypeEntry_eq_some_iff.mp he).1
      unfold hasKey at h1
      rw [lookupKey_isSome_of_mem hp] at h1
      cases h1
  have hri : ∀ p ∈ S.interfaces, removedIfaceEntry S u p = none := by
    intro p hp
    cases he : removedIfaceEntry S u p with
    | none => rfl
    | some r =>
      have h1 := (removedIfaceEntry_eq_some_iff.mp he).1
      have h2 := lookupKey_isSome_of_mem hp
      rw [h1] at h2
      simp at h2
  have hai : ∀ p ∈ S.interfaces, addedIfaceEntry S p = none := by
    intro p hp
    cases he : addedIfaceEntry S p with
    | none => rfl
    | some a =>
      have h1 := (addedIfaceEntry_eq_some_iff.mp he).1
      unfold hasKey at h1
      rw [lookupKey_isSome_of_mem hp] at h1
      cases h1
  have hii : ∀ p ∈ S.interfaces, ifaceChangeEntry S u p = none := by
    intro p hp
    cases he : ifaceChangeEntry S u p with
    | none => rfl
    | some ic =>
      obtain ⟨ni, hni, hdi⟩ := ifaceChangeEntry_eq_some_iff.mp he
      rw [lookupKey_eq_some_of_mem hi hp] at hni
      obtain rfl := Option.some.inj hni
      obtain ⟨hsym, -, -⟩ := diffInterfaces_eq_some_iff.mp hdi
      rcases hsym with ⟨m, hm, hn⟩ | ⟨m, hm, hn⟩ <;> exact (hn hm).elim
  unfold diffAPIs
  rw [List.filterMap_eq_nil_iff.mpr hrf, List.filterMap_eq_nil_iff.mpr hrt,
    List.filterMap_eq_nil_iff.mpr hri, List.filterMap_eq_nil_iff.mpr haf,
    List.filterMap_eq_nil_iff.mpr hat, List.filterMap_eq_nil_iff.mpr hai,
    List.filterMap_eq_nil_iff.mpr hcf, List.filterMap_eq_nil_iff.mpr hii]
  rfl

/-- Witness for `diff_self_empty` at a concrete surface and usage index. -/
theorem diff_self_empty_witness :
    keysNodup oldSurfHandler.funcs ∧ keysNodup oldSurfHandler.interfaces ∧
      diffAPIs oldSurfHandler oldSurfHandler usageHandler =
        { removed := [], added := [], changed := [], interfaceChanges := [] } :=
  ⟨by decide, by decide,
    diff_self_empty oldSurfHandler usageHandler (by decide) (by decide)⟩

/-- C5: a name appears in `Diff.Added` exactly when it is present in the new
surface's functions (respectively types, interfaces) but absent from the old
surface's same mapping — the kind matches and the usage index never filters
`Added` (the `Added` component is the same for every usage index). -/
theorem added_never_usage_filtered (o n : API) (u : Usage) (a : AddedSymbol) :
    (a ∈ (diffAPIs o n u).added ↔
      ((a.type = "function" ∧ hasKey n.funcs a.name = true
          ∧ hasKey o.funcs a.name = false)
        ∨ (a.type = "type" ∧ hasKey n.types a.name = true
          ∧ hasKey o.types a.name = false)
        ∨ (a.type = "interface" ∧ hasKey n.interfaces a.name = true
          ∧ hasKey o.interfaces a.name = false)))
    ∧ ∀ u' : Usage, (diffAPIs o n u).added = (diffAPIs o n u').added := by
  constructor
  · rw [mem_added_iff]
    constructor
    · rintro (⟨p, hp, he⟩ | ⟨p, hp, he⟩ | ⟨p, hp, he⟩)
      · obtain ⟨hk, hae⟩ := addedFuncEntry_eq_some_iff.mp he
        subst hae
        exact Or.inl ⟨rfl, lookupKey_isSome_of_mem hp, hk⟩
      · obtain ⟨hk, hae⟩ := addedTypeEntry_eq_some_iff.mp he
        subst hae
        exact Or.inr (Or.inl ⟨rfl, lookupKey_isSome_of_mem hp, hk⟩)
      · obtain ⟨hk, hae⟩ := addedIfaceEntry_eq_some_iff.mp he
        subst hae
        exact Or.inr (Or.inr ⟨rfl, lookupKey_isSome_of_mem hp, hk⟩)
    · rintro (⟨ht, hn', ho'⟩ | ⟨ht, hn', ho'⟩ | ⟨ht, hn', ho'⟩)
      · obtain ⟨v, hv⟩ := hasKey_eq_true_iff.mp hn'
        refine Or.inl ⟨(a.name, v), mem_of_lookupKey_eq_some hv, ?_⟩
        rw [addedFuncEntry_eq_some_iff]
        refine ⟨ho', ?_⟩
        rcases a with ⟨an, ak⟩
        have hk2 : ak = "function" := ht
        subst hk2
        rfl
      · obtain ⟨v, hv⟩ := hasKey_eq_true_iff.mp hn'
        refine Or.inr (Or.inl ⟨(a.name, v), mem_of_lookupKey_eq_some hv, ?_⟩)
        rw [addedTypeEntry_eq_some_iff]
        refine ⟨ho', ?_⟩
        rcases a with ⟨an, ak⟩
        have hk2 : ak = "type" := ht
        subst hk2
        rfl
      · obtain ⟨v, hv⟩ := hasKey_eq_true_iff.mp hn'
        refine Or.inr (Or.inr ⟨(a.name, v), mem_of_lookupKey_eq_some hv, ?_⟩)
        rw [addedIfaceEntry_eq_some_iff]
        refine ⟨ho', ?_⟩
        rcases a with ⟨an, ak⟩
        have hk2 : ak = "interface" := ht
        subst hk2
        rfl
  · intro u'
    rfl

/-- Witness for `added_never_usage_filtered`: the added function `Parse` is
reported although the usage index is irrelevant (here also with an empty
usage index). -/
theorem added_never_usage_filtered_witness :
    (⟨"Parse", "function"⟩ : AddedSymbol)
        ∈ (diffAPIs emptySurface newSurfParse usageParse).added
      ∧ (diffAPIs emptySurface newSurfParse usageParse).added
        = (diffAPIs emptySurface newSurfParse emptyUsage).added := by
  have h := added_never_usage_filtered emptySurface newSurfParse usageParse
    ⟨"Parse", "function"⟩
  exact ⟨h.1.mpr (Or.inl ⟨rfl, by decide, by decide⟩), h.2 emptyUsage⟩

/-- C7: with a non-nil `Changes` diff `d`, `HasBreakingChanges` holds exactly
when `Removed`, `Changed` or `InterfaceChanges` is non-empty, and
`HasWarnings` exactly when `Added` or the unused-dependency list is
non-empty. -/
theorem result_predicates (r : Result) (d : Diff) (h : r.changes = some d) :
    (r.hasBreakingChanges = true ↔
      (0 < d.removed.length ∨ 0 < d.changed.length
        ∨ 0 < d.interfaceChanges.length))
    ∧ (r.hasWarnings = true ↔
      (0 < d.added.length ∨ 0 < r.unusedDeps.length)) := by
  unfold Result.hasBreakingChanges Result.hasWarnings
  rw [h]
  constructor <;> simp [or_assoc]

/-- Witness for `result_predicates`: a fully empty diff with one unused
dependency has no breaking changes but does have warnings. -/
theorem result_predicates_witness :
    resultUnusedOnly.changes =
        some { removed := [], added := [], changed := [], interfaceChanges := [] }
      ∧ resultUnusedOnly.hasBreakingChanges = false
      ∧ resultUnusedOnly.hasWarnings = true := by
  have h := result_predicates resultUnusedOnly
    { removed := [], added := [], changed := [], interfaceChanges := [] } rfl
  refine ⟨rfl, ?_, h.2.mpr (Or.inr (by decide))⟩
  cases hb : resultUnusedOnly.hasBreakingChanges with
  | false => rfl
  | true =>
    have hc := h.1.mp hb
    simp at hc

/-- C10: `determineExitCode` returns 1 exactly when there are breaking
changes, or warnings in strict mode; it only ever returns 0 or 1, and it
depends on the result only through the two predicates. -/
theorem determineExitCode_spec (r : Result) (strict : Bool) :
    (determineExitCode r strict = 1 ↔
      (r.hasBreakingChanges = true ∨ (strict = true ∧ r.hasWarnings = true)))
    ∧ (determineExitCode r strict = 0 ∨ determineExitCode r strict = 1)
    ∧ (∀ r₂ : Result, r.hasBreakingChanges = r₂.hasBreakingChanges →
        r.hasWarnings = r₂.hasWarnings →
        determineExitCode r strict = determineExitCode r₂ strict) := by
  refine ⟨?_, ?_, ?_⟩
  · unfold determineExitCode
    cases hb : r.hasBreakingChanges <;> cases hw : r.hasWarnings <;>
      cases strict <;> simp
  · unfold determineExitCode
    split
    · exact Or.inr rfl
    · split
      · exact Or.inr rfl
      · exact Or.inl rfl
  · intro r₂ h1 h2
    unfold determineExitCode
    rw [h1, h2]

/-- Witness for `determineExitCode_spec`: a result with a removed-and-used
symbol exits 1 even without strict mode. -/
theorem determineExitCode_spec_witness :
    determineExitCode resultBreaking false = 1 :=
  (determineExitCode_spec resultBreaking false).1.mpr (Or.inl (by decide))

/-- C2: a `ChangedSignature` entry named `N` appears in `Diff.Changed` exactly
when `N` is in both function maps with textually different signature strings
and at least one usage location; the entry carries the old signature, the new
signature and the usage locations.  In particular a function with an identical
signature string never appears, even if used. -/
theorem changed_reported_iff (o n : API) (u : Usage) (N : String)
    (hnd : keysNodup o.funcs) :
    ((∃ c ∈ (diffAPIs o n u).changed, c.name = N) ↔
      (∃ oldF newF, lookupKey o.funcs N = some oldF
        ∧ lookupKey n.funcs N = some newF
        ∧ oldF.signature ≠ newF.signature ∧ u.symbolsAt N ≠ []))
    ∧ (∀ c ∈ (diffAPIs o n u).changed, c.name = N →
        ∃ oldF newF, lookupKey o.funcs N = some oldF
          ∧ lookupKey n.funcs N = some newF
          ∧ c = ⟨N, oldF.signature, newF.signature, u.symbolsAt N⟩) := by
  have key : ∀ c, c ∈ (diffAPIs o n u).changed → c.name = N →
      ∃ oldF newF, lookupKey o.funcs N = some oldF
        ∧ lookupKey n.funcs N = some newF
        ∧ oldF.signature ≠ newF.signature ∧ u.symbolsAt N ≠ []
        ∧ c = ⟨N, oldF.signature, newF.signature, u.symbolsAt N⟩ := by
    intro c hc hcn
    obtain ⟨p, hp, he⟩ := mem_changed_iff.mp hc
    obtain ⟨nf, hnf, hsig, hune, hce⟩ := changedFuncEntry_eq_some_iff.mp he
    have hp1 : p.1 = N := by rw [hce] at hcn; exact hcn
    subst hp1
    exact ⟨p.2, nf, lookupKey_eq_some_of_mem hnd hp, hnf, hsig, hune, hce⟩
  constructor
  · constructor
    · rintro ⟨c, hc, hcn⟩
      obtain ⟨oldF, newF, e1, e2, e3, e4, -⟩ := key c hc hcn
      exact ⟨oldF, newF, e1, e2, e3, e4⟩
    · rintro ⟨oldF, newF, e1, e2, e3, e4⟩
      refine ⟨⟨N, oldF.signature, newF.signature, u.symbolsAt N⟩, ?_, rfl⟩
      rw [mem_changed_iff]
      refine ⟨(N, oldF), mem_of_lookupKey_eq_some e1, ?_⟩
      rw [changedFuncEntry_eq_some_iff]
      exact ⟨newF, e2, e3, e4, rfl⟩
  · intro c hc hcn
    obtain ⟨oldF, newF, e1, e2, -, -, hce⟩ := key c hc hcn
    exact ⟨oldF, newF, e1, e2, hce⟩

/-- Witness for `changed_reported_iff`: `Parse` changes from `func() error`
to `func(context.Context) error` and is used, so a `Changed` entry named
`Parse` is emitted. -/
theorem changed_reported_iff_witness :
    keysNodup oldSurfParse.funcs
      ∧ ∃ c ∈ (diffAPIs oldSurfParse newSurfParse usageParse).changed,
          c.name = "Parse" := by
  refine ⟨by decide, ?_⟩
  exact (changed_reported_iff oldSurfParse newSurfParse usageParse "Parse"
    (by decide)).1.mpr
    ⟨{ name := "Parse", signature := "func() error", pkgPath := "",
       isMethod := false },
     { name := "Parse", signature := "func(context.Context) error",
       pkgPath := "", isMethod := false },
     by decide, by decide, by decide, by decide⟩

/-- C3: for an interface name present in both surfaces, an `InterfaceChange`
is emitted exactly when the symmetric difference of the two method sets is
non-empty and the name has at least one usage location; the emitted entry's
`AddedMethods` are the methods of the new interface missing from the old, and
`RemovedMethods` the methods of the old interface missing from the new (as
sets: order and duplicates of the method lists are irrelevant). -/
theorem interfaceChange_reported_iff (o n : API) (u : Usage) (name : String)
    (oi ni : Interface) (hnd : keysNodup o.interfaces)
    (h1 : lookupKey o.interfaces name = some oi)
    (h2 : lookupKey n.interfaces name = some ni) :
    ((∃ ic ∈ (diffAPIs o n u).interfaceChanges, ic.name = name) ↔
      (((∃ m ∈ ni.methods, m ∉ oi.methods) ∨ (∃ m ∈ oi.methods, m ∉ ni.methods))
        ∧ u.symbolsAt name ≠ []))
    ∧ (∀ ic ∈ (diffAPIs o n u).interfaceChanges, ic.name = name →
        (∀ m, m ∈ ic.addedMethods ↔ (m ∈ ni.methods ∧ m ∉ oi.methods))
        ∧ (∀ m, m ∈ ic.removedMethods ↔ (m ∈ oi.methods ∧ m ∉ ni.methods))) := by
  have key : ∀ ic, ic ∈ (diffAPIs o n u).interfaceChanges → ic.name = name →
      ((∃ m ∈ ni.methods, m ∉ oi.methods) ∨ (∃ m ∈ oi.methods, m ∉ ni.methods))
        ∧ u.symbolsAt name ≠ []
        ∧ ic = ⟨name,
                ni.methods.dedup.filter (fun m => !(oi.methods.contains m)),
                oi.methods.dedup.filter (fun m => !(ni.methods.contains m)),
                [], u.symbolsAt name⟩ := by
    intro ic hic hicn
    obtain ⟨p, hp, he⟩ := mem_ifaceChanges_iff.mp hic
    obtain ⟨ni', hni', hdi⟩ := ifaceChangeEntry_eq_some_iff.mp he
    have hp1 : p.1 = name := by
      rw [← hicn]
      exact (name_of_diffInterfaces_eq_some hdi).symm
    subst hp1
    have hp2 : p.2 = oi := by
      have hm := lookupKey_eq_some_of_mem hnd hp
      rw [h1] at hm
      exact (Option.some.inj hm).symm
    have hni2 : ni' = ni := by
      rw [h2] at hni'
      exact (Option.some.inj hni').symm
    rw [hp2, hni2] at hdi
    exact diffInterfaces_eq_some_iff.mp hdi
  constructor
  · constructor
    · rintro ⟨ic, hic, hicn⟩
      exact ⟨(key ic hic hicn).1, (key ic hic hicn).2.1⟩
    · rintro ⟨hsym, hune⟩
      refine ⟨⟨name,
          ni.methods.dedup.filter (fun m => !(oi.methods.contains m)),
          oi.methods.dedup.filter (fun m => !(ni.methods.contains m)),
          [], u.symbolsAt name⟩, ?_, rfl⟩
      rw [mem_ifaceChanges_iff]
      refine ⟨(name, oi), mem_of_lookupKey_eq_some h1, ?_⟩
      rw [ifaceChangeEntry_eq_some_iff]
      exact ⟨ni, h2, diffInterfaces_eq_some_iff.mpr ⟨hsym, hune, rfl⟩⟩
  · intro ic hic hicn
    obtain ⟨-, -, hie⟩ := key ic hic hicn
    subst hie
    exact ⟨fun m => ⟨fun hm => mem_methodFilter.mp hm,
                     fun hm => mem_methodFilter.mpr hm⟩,
           fun m => ⟨fun hm => mem_methodFilter.mp hm,
                     fun hm => mem_methodFilter.mpr hm⟩⟩

/-- Witness for `interfaceChange_reported_iff`: the `Handler` interface loses
`Close() error` and is used, so one `InterfaceChange` named `Handler` is
emitted. -/
theorem interfaceChange_reported_iff_witness :
    keysNodup oldSurfHandler.interfaces
      ∧ ∃ ic ∈ (diffAPIs oldSurfHandler newSurfHandler
          usageHandler).interfaceChanges, ic.name = "Handler" := by
  refine ⟨by decide, ?_⟩
  exact (interfaceChange_reported_iff oldSurfHandler newSurfHandler
      usageHandler "Handler"
      { name := "Handler", methods := ["Handle() error", "Close() error"],
        pkgPath := "" }
      { name := "Handler", methods := ["Handle() error"], pkgPath := "" }
      (by decide) (by decide) (by decide)).1.mpr
    ⟨Or.inr ⟨"Close() error", by decide, by decide⟩, by decide⟩

/-- C1: a symbol name present in the old surface's functions (respectively
types, interfaces) but absent from the new surface's same mapping appears in
`Diff.Removed` — with the matching kind and its usage locations — exactly when
the name is a key of the usage index's symbols map with a non-empty location
list; otherwise the symbol is omitted entirely: nothing in `Removed`,
`Changed` or `InterfaceChanges` carries its name and no `Added` entry of its
kind does (not even as a warning). -/
theorem removed_reported_iff_used (o n : API) (u : Usage) (name : String) :
    (hasKey o.funcs name = true → hasKey n.funcs name = false →
      (((⟨name, "function", u.symbolsAt name⟩ : RemovedSymbol)
          ∈ (diffAPIs o n u).removed ↔
        (∃ locs, lookupKey u.symbols name = some locs ∧ locs ≠ []))
      ∧ (u.symbolsAt name = [] →
          (∀ r ∈ (diffAPIs o n u).removed, r.name ≠ name)
          ∧ (∀ c ∈ (diffAPIs o n u).changed, c.name ≠ name)
          ∧ (∀ ic ∈ (diffAPIs o n u).interfaceChanges, ic.name ≠ name)
          ∧ (∀ a ∈ (diffAPIs o n u).added, a.name = name →
              a.type ≠ "function"))))
    ∧ (hasKey o.types name = true → hasKey n.types name = false →
      (((⟨name, "type", u.symbolsAt name⟩ : RemovedSymbol)
          ∈ (diffAPIs o n u).removed ↔
        (∃ locs, lookupKey u.symbols name = some locs ∧ locs ≠ []))
      ∧ (u.symbolsAt name = [] →
          (∀ r ∈ (diffAPIs o n u).removed, r.name ≠ name)
          ∧ (∀ c ∈ (diffAPIs o n u).changed, c.name ≠ name)
          ∧ (∀ ic ∈ (diffAPIs o n u).interfaceChanges, ic.name ≠ name)
          ∧ (∀ a ∈ (diffAPIs o n u).added, a.name = name →
              a.type ≠ "type"))))
    ∧ (hasKey o.interfaces name = true → hasKey n.interfaces name = false →
      (((⟨name, "interface", u.symbolsAt name⟩ : RemovedSymbol)
          ∈ (diffAPIs o n u).removed ↔
        (∃ locs, lookupKey u.symbols name = some locs ∧ locs ≠ []))
      ∧ (u.symbolsAt name = [] →
          (∀ r ∈ (diffAPIs o n u).removed, r.name ≠ name)
          ∧ (∀ c ∈ (diffAPIs o n u).changed, c.name ≠ name)
          ∧ (∀ ic ∈ (diffAPIs o n u).interfaceChanges, ic.name ≠ name)
          ∧ (∀ a ∈ (diffAPIs o n u).added, a.name = name →
              a.type ≠ "interface")))) := by
  refine ⟨fun ho hn' => ⟨?_, fun hu0 => ?_⟩,
          fun ho hn' => ⟨?_, fun hu0 => ?_⟩,
          fun ho hn' => ⟨?_, fun hu0 => ?_⟩⟩
  · -- functions: membership iff usage non-empty
    constructor
    · intro hmem
      rcases mem_removed_iff.mp hmem with ⟨p, hp, he⟩ | ⟨p, hp, he⟩ | ⟨p, hp, he⟩
      · obtain ⟨-, hne, hre⟩ := removedFuncEntry_eq_some_iff.mp he
        have hp1 : name = p.1 := congrArg RemovedSymbol.name hre
        rw [symbolsAt_ne_nil_iff] at hne
        rw [← hp1] at hne
        exact hne
      · have hx : "function" = "type" :=
          congrArg RemovedSymbol.type ((removedTypeEntry_eq_some_iff.mp he).2.2)
        exact absurd hx (by decide)
      · have hx : "function" = "interface" :=
          congrArg RemovedSymbol.type ((removedIfaceEntry_eq_some_iff.mp he).2.2)
        exact absurd hx (by decide)
    · intro hex
      have husym : u.symbolsAt name ≠ [] := symbolsAt_ne_nil_iff.mpr hex
      obtain ⟨v, hv⟩ := hasKey_eq_true_iff.mp ho
      rw [mem_removed_iff]
      refine Or.inl ⟨(name, v), mem_of_lookupKey_eq_some hv, ?_⟩
      rw [removedFuncEntry_eq_some_iff]
      exact ⟨hasKey_eq_false_iff.mp hn', husym, rfl⟩
  · -- functions: unused symbols are omitted everywhere
    obtain ⟨hrm, hch, hifc⟩ := no_reports_of_unused o n u name hu0
    refine ⟨hrm, hch, hifc, fun a ha han hat => ?_⟩
    rcases mem_added_iff.mp ha with ⟨p, hp, he⟩ | ⟨p, hp, he⟩ | ⟨p, hp, he⟩
    · obtain ⟨-, hae⟩ := addedFuncEntry_eq_some_iff.mp he
      have hp1 : p.1 = name := by rw [hae] at han; exact han
      have hsome := lookupKey_isSome_of_mem hp
      rw [hp1, hasKey_eq_false_iff.mp hn'] at hsome
      cases hsome
    · obtain ⟨-, hae⟩ := addedTypeEntry_eq_some_iff.mp he
      rw [hae] at hat
      have hx : "type" = "function" := hat
      exact absurd hx (by decide)
    · obtain ⟨-, hae⟩ := addedIfaceEntry_eq_some_iff.mp he
      rw [hae] at hat
      have hx : "interface" = "function" := hat
      exact absurd hx (by decide)
  · -- types: membership iff usage non-empty
    constructor
    · intro hmem
      rcases mem_removed_iff.mp hmem with ⟨p, hp, he⟩ | ⟨p, hp, he⟩ | ⟨p, hp, he⟩
      · have hx : "type" = "function" :=
          congrArg RemovedSymbol.type ((removedFuncEntry_eq_some_iff.mp he).2.2)
        exact absurd hx (by decide)
      · obtain ⟨-, hne, hre⟩ := removedTypeEntry_eq_some_iff.mp he
        have hp1 : name = p.1 := congrArg RemovedSymbol.name hre
        rw [symbolsAt_ne_nil_iff] at hne
        rw [← hp1] at hne
        exact hne
      · have hx : "type" = "interface" :=
          congrArg RemovedSymbol.type ((removedIfaceEntry_eq_some_iff.mp he).2.2)
        exact absurd hx (by decide)
    · intro hex
      have husym : u.symbolsAt name ≠ [] := symbolsAt_ne_nil_iff.mpr hex
      obtain ⟨v, hv⟩ := hasKey_eq_true_iff.mp ho
      rw [mem_removed_iff]
      refine Or.inr (Or.inl ⟨(name, v), mem_of_lookupKey_eq_some hv, ?_⟩)
      rw [removedTypeEntry_eq_some_iff]
      exact ⟨hn', husym, rfl⟩
  · -- types: unused symbols are omitted everywhere
    obtain ⟨hrm, hch, hifc⟩ := no_reports_of_unused o n u name hu0
    refine ⟨hrm, hch, hifc, fun a ha han hat => ?_⟩
    rcases mem_added_iff.mp ha with ⟨p, hp, he⟩ | ⟨p, hp, he⟩ | ⟨p, hp, he⟩
    · obtain ⟨-, hae⟩ := addedFuncEntry_eq_some_iff.mp he
      rw [hae] at hat
      have hx : "function" = "type" := hat
      exact absurd hx (by decide)
    · obtain ⟨-, hae⟩ := addedTypeEntry_eq_some_iff.mp he
      have hp1 : p.1 = name := by rw [hae] at han; exact han
      have hsome := lookupKey_isSome_of_mem hp
      rw [hp1, hasKey_eq_false_iff.mp hn'] at hsome
      cases hsome
    · obtain ⟨-, hae⟩ := addedIfaceEntry_eq_some_iff.mp he
      rw [hae] at hat
      have hx : "interface" = "type" := hat
      exact absurd hx (by decide)
  · -- interfaces: membership iff usage non-empty
    constructor
    · intro hmem
      rcases mem_removed_iff.mp hmem with ⟨p, hp, he⟩ | ⟨p, hp, he⟩ | ⟨p, hp, he⟩
      · have hx : "interface" = "function" :=
          congrArg RemovedSymbol.type ((removedFuncEntry_eq_some_iff.mp he).2.2)
        exact absurd hx (by decide)
      · have hx : "interface" = "type" :=
          congrArg RemovedSymbol.type ((removedTypeEntry_eq_some_iff.mp he).2.2)
        exact absurd hx (by decide)
      · obtain ⟨-, hne, hre⟩ := removedIfaceEntry_eq_some_iff.mp he
        have hp1 : name = p.1 := congrArg RemovedSymbol.name hre
        rw [symbolsAt_ne_nil_iff] at hne
        rw [← hp1] at hne
        exact hne
    · intro hex
      have husym : u.symbolsAt name ≠ [] := symbolsAt_ne_nil_iff.mpr hex
      obtain ⟨v, hv⟩ := hasKey_eq_true_iff.mp ho
      rw [mem_removed_iff]
      refine Or.inr (Or.inr ⟨(name, v), mem_of_lookupKey_eq_some hv, ?_⟩)
      rw [removedIfaceEntry_eq_some_iff]
      exact ⟨hasKey_eq_false_iff.mp hn', husym, rfl⟩
  · -- interfaces: unused symbols are omitted everywhere
    obtain ⟨hrm, hch, hifc⟩ := no_reports_of_unused o n u name hu0
    refine ⟨hrm, hch, hifc, fun a ha han hat => ?_⟩
    rcases mem_added_iff.mp ha with ⟨p, hp, he⟩ | ⟨p, hp, he⟩ | ⟨p, hp, he⟩
    · obtain ⟨-, hae⟩ := addedFuncEntry_eq_some_iff.mp he
      rw [hae] at hat
      have hx : "function" = "interface" := hat
      exact absurd hx (by decide)
    · obtain ⟨-, hae⟩ := addedTypeEntry_eq_some_iff.mp he
      rw [hae] at hat
      have hx : "type" = "interface" := hat
      exact absurd hx (by decide)
    · obtain ⟨-, hae⟩ := addedIfaceEntry_eq_some_iff.mp he
      have hp1 : p.1 = name := by rw [hae] at han; exact han
      have hsome := lookupKey_isSome_of_mem hp
      rw [hp1, hasKey_eq_false_iff.mp hn'] at hsome
      cases hsome

/-- Witness for `removed_reported_iff_used`: the spec's removal scenario —
`F` removed and used at `m.go:10` yields a `Removed` entry of kind
`function` carrying that location. -/
theorem removed_reported_iff_used_witness :
    hasKey oldSurfF.funcs "F" = true
      ∧ hasKey emptySurface.funcs "F" = false
      ∧ (⟨"F", "function", usageF.symbolsAt "F"⟩ : RemovedSymbol)
          ∈ (diffAPIs oldSurfF emptySurface usageF).removed := by
  refine ⟨by decide, by decide, ?_⟩
  exact ((removed_reported_iff_used oldSurfF emptySurface usageF "F").1
    (by decide) (by decide)).1.mpr
    ⟨[{ file := "m.go", line := 10 }], by decide, by decide⟩

/-- C6 counterexample: the order of the `Removed` sequence does depend on the
map iteration order — the same function map presented in two iteration
orders (a permutation of the association list, duplicate-free keys) produces
two different Diffs, differing only in element order. -/
theorem diff_order_depends_on_iteration_order :
    surfAB.funcs.Perm surfBA.funcs
      ∧ surfAB.types = surfBA.types
      ∧ surfAB.interfaces = surfBA.interfaces
      ∧ keysNodup surfAB.funcs
      ∧ diffAPIs surfAB emptySurface usageAB
          ≠ diffAPIs surfBA emptySurface usageAB := by
  exact ⟨by decide, rfl, rfl, by decide, by decide⟩

/-- C6 (amended): the Diff Engine is deterministic up to ordering — for
equal inputs the entries of each output sequence are determined up to
permutation (they do not depend on map iteration order), but their order
within each sequence follows the unsorted traversal of the surfaces'
maps. -/
theorem diff_deterministic_up_to_permutation
    (o₁ o₂ n₁ n₂ : API) (u₁ u₂ : Usage)
    (hof : keysNodup o₁.funcs) (hot : keysNodup o₁.types)
    (hoi : keysNodup o₁.interfaces)
    (hnf : keysNodup n₁.funcs) (hnt : keysNodup n₁.types)
    (hni : keysNodup n₁.interfaces)
    (hus : keysNodup u₁.symbols)
    (pof : o₁.funcs.Perm o₂.funcs) (pot : o₁.types.Perm o₂.types)
    (poi : o₁.interfaces.Perm o₂.interfaces)
    (pnf : n₁.funcs.Perm n₂.funcs) (pnt : n₁.types.Perm n₂.types)
    (pni : n₁.interfaces.Perm n₂.interfaces)
    (pus : u₁.symbols.Perm u₂.symbols) :
    (diffAPIs o₁ n₁ u₁).removed.Perm (diffAPIs o₂ n₂ u₂).removed
    ∧ (diffAPIs o₁ n₁ u₁).added.Perm (diffAPIs o₂ n₂ u₂).added
    ∧ (diffAPIs o₁ n₁ u₁).changed.Perm (diffAPIs o₂ n₂ u₂).changed
    ∧ (diffAPIs o₁ n₁ u₁).interfaceChanges.Perm
        (diffAPIs o₂ n₂ u₂).interfaceChanges := by
  have Lnf : lookupKey n₁.funcs = lookupKey n₂.funcs :=
    funext (lookupKey_congr_perm hnf pnf)
  have Lnt : lookupKey n₁.types = lookupKey n₂.types :=
    funext (lookupKey_congr_perm hnt pnt)
  have Lni : lookupKey n₁.interfaces = lookupKey n₂.interfaces :=
    funext (lookupKey_congr_perm hni pni)
  have Lof : lookupKey o₁.funcs = lookupKey o₂.funcs :=
    funext (lookupKey_congr_perm hof pof)
  have Lot : lookupKey o₁.types = lookupKey o₂.types :=
    funext (lookupKey_congr_perm hot pot)
  have Loi : lookupKey o₁.interfaces = lookupKey o₂.interfaces :=
    funext (lookupKey_congr_perm hoi poi)
  have Lus : lookupKey u₁.symbols = lookupKey u₂.symbols :=
    funext (lookupKey_congr_perm hus pus)
  have e1 : removedFuncEntry n₁ u₁ = removedFuncEntry n₂ u₂ := by
    funext p
    unfold removedFuncEntry Usage.symbolsAt
    rw [Lnf, Lus]
  have e2 : changedFuncEntry n₁ u₁ = changedFuncEntry n₂ u₂ := by
    funext p
    unfold changedFuncEntry Usage.symbolsAt
    rw [Lnf, Lus]
  have e3 : addedFuncEntry o₁ = addedFuncEntry o₂ := by
    funext p
    unfold addedFuncEntry hasKey
    rw [Lof]
  have e4 : removedTypeEntry n₁ u₁ = removedTypeEntry n₂ u₂ := by
    funext p
    unfold removedTypeEntry hasKey Usage.symbolsAt
    rw [Lnt, Lus]
  have e5 : addedTypeEntry o₁ = addedTypeEntry o₂ := by
    funext p
    unfold addedTypeEntry hasKey
    rw [Lot]
  have e6 : ifaceChangeEntry n₁ u₁ = ifaceChangeEntry n₂ u₂ := by
    funext p
    unfold ifaceChangeEntry diffInterfaces Usage.symbolsAt
    rw [Lni, Lus]
  have e7 : removedIfaceEntry n₁ u₁ = removedIfaceEntry n₂ u₂ := by
    funext p
    unfold removedIfaceEntry Usage.symbolsAt
    rw [Lni, Lus]
  have e8 : addedIfaceEntry o₁ = addedIfaceEntry o₂ := by
    funext p
    unfold addedIfaceEntry hasKey
    rw [Loi]
  refine ⟨?_, ?_, ?_, ?_⟩
  · simp only [diffAPIs]
    rw [e1, e4, e7]
    exact ((pof.filterMap _).append (pot.filterMap _)).append (poi.filterMap _)
  · simp only [diffAPIs]
    rw [e3, e5, e8]
    exact ((pnf.filterMap _).append (pnt.filterMap _)).append (pni.filterMap _)
  · simp only [diffAPIs]
    rw [e2]
    exact pof.filterMap _
  · simp only [diffAPIs]
    rw [e6]
    exact poi.filterMap _

/-- Witness for `diff_deterministic_up_to_permutation`: the two iteration
orders of the counterexample still produce the same `Removed` multiset. -/
theorem diff_deterministic_up_to_permutation_witness :
    surfAB.funcs.Perm surfBA.funcs
      ∧ (diffAPIs surfAB emptySurface usageAB).removed.Perm
          (diffAPIs surfBA emptySurface usageAB).removed := by
  refine ⟨by decide, ?_⟩
  exact (diff_deterministic_up_to_permutation surfAB surfBA
    emptySurface emptySurface usageAB usageAB
    (by decide) (by decide) (by decide) (by decide) (by decide) (by decide)
    (by decide) (by decide) (by decide) (by decide) (by decide) (by decide)
    (by decide) (by decide)).1

theorem parseUpgrade_eq_ok_iff {s : String} {up : Upgrade} :
    parseUpgrade s = .ok up ↔
      ∃ m v, splitOnChar '@' s.data = [m, v]
        ∧ trimSpace m ≠ "" ∧ trimSpace v ≠ ""
        ∧ up = ⟨trimSpace m, "", trimSpace v⟩ := by
  unfold parseUpgrade
  cases h : splitOnChar '@' s.data with
  | nil => simp
  | cons a t =>
    cases t with
    | nil => simp
    | cons b t2 =>
      cases t2 with
      | nil =>
        dsimp only
        by_cases hm : trimSpace a = "" ∨ trimSpace b = ""
        · rw [if_pos hm]
          constructor
          · intro he; cases he
          · rintro ⟨m, v, heq, hmne, hvne, -⟩
            obtain ⟨rfl, rfl⟩ : a = m ∧ b = v := by
              injection heq with h1 h2
              injection h2 with h3 h4
              exact ⟨h1, h3⟩
            rcases hm with hx | hx
            · exact absurd hx hmne
            · exact absurd hx hvne
        · rw [if_neg hm]
          push_neg at hm
          constructor
          · intro he
            exact ⟨a, b, rfl, hm.1, hm.2, (Except.ok.inj he).symm⟩
          · rintro ⟨m, v, heq, -, -, hup⟩
            obtain ⟨rfl, rfl⟩ : a = m ∧ b = v := by
              injection heq with h1 h2
              injection h2 with h3 h4
              exact ⟨h1, h3⟩
            rw [hup]
      | cons c t3 => simp

theorem parseUpgrade_eq_error_iff {s : String} :
    (∃ e, parseUpgrade s = .error e) ↔
      ¬∃ m v, splitOnChar '@' s.data = [m, v]
        ∧ trimSpace m ≠ "" ∧ trimSpace v ≠ "" := by
  constructor
  · rintro ⟨e, he⟩ ⟨m, v, h1, h2, h3⟩
    have hok : parseUpgrade s = .ok ⟨trimSpace m, "", trimSpace v⟩ :=
      parseUpgrade_eq_ok_iff.mpr ⟨m, v, h1, h2, h3, rfl⟩
    rw [hok] at he
    cases he
  · intro hno
    cases hp : parseUpgrade s with
    | error e => exact ⟨e, rfl⟩
    | ok up =>
      obtain ⟨m, v, h1, h2, h3, -⟩ := parseUpgrade_eq_ok_iff.mp hp
      exact absurd ⟨m, v, h1, h2, h3⟩ hno

/-- C8: `ParseUpgrade` succeeds exactly when the input splits on `@` into two
components that are non-empty after trimming, returning the trimmed
components as module and new version; on a malformed spec it errors and
`run` returns before consulting any collaborator (no loading or diffing). -/
theorem parseUpgrade_spec (s : String) :
    (∀ m v, splitOnChar '@' s.data = [m, v] → trimSpace m ≠ "" →
      trimSpace v ≠ "" →
      parseUpgrade s = .ok ⟨trimSpace m, "", trimSpace v⟩)
    ∧ ((∃ e, parseUpgrade s = .error e) ↔
        ¬∃ m v, splitOnChar '@' s.data = [m, v]
          ∧ trimSpace m ≠ "" ∧ trimSpace v ≠ "")
    ∧ (∀ (cfg : Config) (env env' : RunEnv), cfg.upgrade = s →
        (∃ e, parseUpgrade s = .error e) → run cfg env = run cfg env') := by
  refine ⟨?_, parseUpgrade_eq_error_iff, ?_⟩
  · intro m v h1 h2 h3
    exact parseUpgrade_eq_ok_iff.mpr ⟨m, v, h1, h2, h3, rfl⟩
  · rintro cfg env env' hcfg ⟨e, he⟩
    unfold run
    rw [hcfg, he]

/-- Witness for `parseUpgrade_spec`: a well-formed spec parses into its two
components. -/
theorem parseUpgrade_spec_witness :
    splitOnChar '@' "example.com/lib@v2.0.0".data =
        ["example.com/lib", "v2.0.0"]
      ∧ parseUpgrade "example.com/lib@v2.0.0" =
          .ok ⟨"example.com/lib", "", "v2.0.0"⟩ := by
  refine ⟨by decide, ?_⟩
  exact (parseUpgrade_spec "example.com/lib@v2.0.0").1 "example.com/lib"
    "v2.0.0" (by decide) (by decide) (by decide)

/-- C9: a failure of the optional unused-dependency pass never aborts the
audit — with the unused flag set and `FindUnusedDependencies` failing after
a successful `Analyze`, `run` still completes, and the Diff produced by the
primary analysis is unchanged (the failure degrades to a warning instead of
aborting). -/
theorem unused_pass_failure_degrades (cfg : Config) (env : RunEnv)
    (up : Upgrade) (res : Result) (e out : String)
    (hu : cfg.unused = true)
    (hp : parseUpgrade cfg.upgrade = .ok up)
    (hn : env.newAnalyzer = .ok ())
    (ha : env.analyze up = .ok res)
    (hf : env.findUnusedDependencies = .error e)
    (hfmt : (if cfg.jsonOutput then
        env.formatJSON (if cfg.verbose then res else { res with unusedDeps := [] })
      else
        env.formatText (if cfg.verbose then res else { res with unusedDeps := [] })
          cfg.verbose) = .ok out) :
    run cfg env = .ok (out,
        (if cfg.verbose then res else { res with unusedDeps := [] }),
        determineExitCode
          (if cfg.verbose then res else { res with unusedDeps := [] }) cfg.strict)
    ∧ (if cfg.verbose then res else { res with unusedDeps := [] }).changes
        = res.changes := by
  constructor
  · unfold run
    rw [hp]
    dsimp only
    rw [hn]
    dsimp only
    rw [ha]
    dsimp only
    rw [hu, hf]
    simp only [if_true]
    rw [hfmt]
  · cases hv : cfg.verbose <;> simp [hv]

/-- Witness for `unused_pass_failure_degrades` at a concrete configuration
and environment. -/
theorem unused_pass_failure_degrades_witness :
    cfgUnused.unused = true
      ∧ envUnusedFails.findUnusedDependencies = .error "load failure"
      ∧ run cfgUnused envUnusedFails =
          .ok ("report", { resultBreaking with unusedDeps := ([] : List String) },
            determineExitCode
              { resultBreaking with unusedDeps := ([] : List String) }
              cfgUnused.strict)
      ∧ ({ resultBreaking with unusedDeps := ([] : List String) }).changes
          = resultBreaking.changes := by
  have h := unused_pass_failure_degrades cfgUnused envUnusedFails
    { module := "example.com/lib", oldVersion := "", newVersion := "v2.0.0" }
    resultBreaking "load failure" "report"
    rfl rfl rfl rfl rfl rfl
  exact ⟨rfl, rfl, h.1, h.2⟩

end SemverAudit
